import Mathlib

/-!
Verification of the Location Resolution & Hierarchical Filtering Engine
of the hotlines directory application (`src/app/page.tsx`).

Strings are modelled as `List Char` (the `data` of a Lean `String`), so that
all operations are executable and kernel-reducible.  JavaScript's
`toLowerCase` is modelled by mapping `Char.toLower` (exact for the basic
Latin letters appearing in the dataset), and `trim` by dropping whitespace
characters from both ends.
-/

namespace Hotlines

/-- Strings, modelled as lists of characters. -/
abbrev Str := List Char

/-- Build a `Str` from a Lean string literal. -/
def str (s : String) : Str := s.data

/-- Model of JavaScript `String.prototype.toLowerCase` (basic Latin). -/
def lowerStr (s : Str) : Str := s.map Char.toLower

/-- Drop leading whitespace (the left half of JavaScript `trim`). -/
def trimLeft (s : Str) : Str := s.dropWhile Char.isWhitespace

/-- Drop trailing whitespace (the right half of JavaScript `trim`). -/
def trimRight (s : Str) : Str := (s.reverse.dropWhile Char.isWhitespace).reverse

/-- Model of JavaScript `String.prototype.trim`. -/
def trimStr (s : Str) : Str := trimRight (trimLeft s)

/-- `const normalizeString = (str) => str.toLowerCase().trim();` -/
def normalizeString (s : Str) : Str := trimStr (lowerStr s)

/-- The `'|'` separator used in composite city keys. -/
def strBar : Str := ['|']

/-- The key-building expression `` normalizeString(`${city}|${province}`) ``
inlined at every site of the source that builds a composite city key. -/
def compositeKey (city province : Str) : Str :=
  normalizeString (city ++ strBar ++ province)

-- The metadata dataset: `{ metadata: { regions: [{ name, provinces:
-- [{ province, cities }] }] } }`.

/-- One province of the metadata dataset. -/
structure MProvince where
  province : Str
  cities : List Str
deriving DecidableEq, Repr

/-- One region of the metadata dataset. -/
structure MRegion where
  name : Str
  provinces : List MProvince
deriving DecidableEq, Repr

/-- The metadata dataset (the `metadata.metadata` object). -/
structure Metadata where
  regions : List MRegion
deriving DecidableEq, Repr

-- sanity checks for the string model
example : normalizeString (str "  Metro Manila ") = str "metro manila" := by decide
example : compositeKey (str "Manila") (str "Metro Manila") = str "manila|metro manila" := by
  decide
example : compositeKey (str "Manila ") (str "Metro Manila") = str "manila |metro manila" := by
  decide

-- A JavaScript `Map`, modelled as an association list in insertion order.
-- `Map.set` updates the value in place when the key is present (keeping the
-- original insertion position) and appends otherwise; `Map.get` returns the
-- value of the unique entry with the key.

/-- `map.set(k, v)` on a JavaScript `Map`. -/
def mapSet {α : Type} (m : List (Str × α)) (k : Str) (v : α) : List (Str × α) :=
  if m.any (fun p => decide (p.1 = k)) then
    m.map (fun p => if p.1 = k then (k, v) else p)
  else
    m ++ [(k, v)]

/-- `map.get(k)` on a JavaScript `Map` (`none` = `undefined`). -/
def mapGet {α : Type} (m : List (Str × α)) (k : Str) : Option α :=
  (m.find? (fun p => decide (p.1 = k))).map (fun p => p.2)

/-- An entry of the city list built by `locationFilters`:
`{region, province, city, key, displayName}`. -/
structure LocationFilter where
  region : Str
  province : Str
  city : Str
  key : Str
  displayName : Str
deriving DecidableEq, Repr

/-- The full city list (the `allCities` constant inside the
`locationFilters` memo): two `flatMap`s over the metadata, each city entry
carrying its raw region/province names, its composite key and its display
name. -/
def allCities (md : Metadata) : List LocationFilter :=
  (md.regions.flatMap (fun region =>
      region.provinces.map (fun province =>
        (region.name, province.province, province.cities)))).flatMap
    (fun data =>
      data.2.2.map (fun city =>
        { region := data.1
          province := data.2.1
          city := city
          key := compositeKey city data.2.1
          displayName := city ++ str " (" ++ data.2.1 ++ str ")" }))

/-- The `locationFilters` memo: the full city list, narrowed by the selected
province if one is set, else by the selected region if one is set.  Empty
strings are falsy in JavaScript, so an empty selection means "unset". -/
def locationFilters (md : Metadata) (regionSel provinceSel : Str) :
    List LocationFilter :=
  let all := allCities md
  if provinceSel = [] then
    if regionSel = [] then all
    else all.filter (fun c => decide (normalizeString c.region = normalizeString regionSel))
  else all.filter (fun c => decide (normalizeString c.province = normalizeString provinceSel))

/-- The `provinceToRegionMap` memo: for every region and every province of
it (dataset order), `map.set(normalize(province), normalize(region))`. -/
def provinceToRegionMap (md : Metadata) : List (Str × Str) :=
  md.regions.foldl
    (fun m region =>
      region.provinces.foldl
        (fun m province =>
          mapSet m (normalizeString province.province) (normalizeString region.name))
        m)
    []

/-- The `cityToLocationMap` memo: for every region, province and city
(dataset order),
`map.set(normalize(city + "|" + province), {region, province})` with the
normalized owning names as the value. -/
def cityToLocationMap (md : Metadata) : List (Str × (Str × Str)) :=
  md.regions.foldl
    (fun m region =>
      region.provinces.foldl
        (fun m province =>
          province.cities.foldl
            (fun m city =>
              mapSet m (compositeKey city province.province)
                (normalizeString region.name, normalizeString province.province))
            m)
        m)
    []

-- The location resolver (the `detectLocation` effect).

/-- A resolved/selected location: the three location fields of the filter
state. -/
structure Loc where
  region : Str
  province : Str
  city : Str
deriving DecidableEq, Repr

/-- The initial filter state: all location fields unset (empty strings). -/
def initialLoc : Loc := { region := [], province := [], city := [] }

/-- `getDefaultLocation`: first region, its first province, that province's
first city, all normalized (`none` models the exception thrown when the
dataset is empty at some level). -/
def getDefaultLocation (md : Metadata) : Option Loc :=
  match md.regions.head? with
  | none => none
  | some region0 =>
    match region0.provinces.head? with
    | none => none
    | some province0 =>
      match province0.cities.head? with
      | none => none
      | some city0 =>
        some
          { region := normalizeString region0.name
            province := normalizeString province0.province
            city := compositeKey city0 province0.province }

/-- `findLocationInMetadata`: scan every region's provinces in dataset order
for the first city whose normalized name equals the normalized query. -/
def findLocationInMetadata (md : Metadata) (cityName : Str) : Option Loc :=
  let normalizedCity := normalizeString cityName
  md.regions.findSome? (fun region =>
    region.provinces.findSome? (fun province =>
      match province.cities.find? (fun c => decide (normalizeString c = normalizedCity)) with
      | some cityMatch =>
          some
            { region := normalizeString region.name
              province := normalizeString province.province
              city := compositeKey cityMatch province.province }
      | none => none))

/-- A value read back from `localStorage.getItem('lastSavedLocation')`:
either JSON-parseable as an object with the three fields, or a legacy bare
string on which `JSON.parse` throws. -/
inductive StoredPayload where
  | structured (region province city : Str)
  | legacy (s : Str)
deriving DecidableEq, Repr

/-- The outcome of the resolver: the location fields of the filter state
after it ran, and the location written to `localStorage` (by
`updateLocation`), if any. -/
structure ResolveOutcome where
  filter : Loc
  persisted : Option Loc
deriving DecidableEq, Repr

/-- The `try` block of `getLocation`.  `geoOk` tells whether
`getCoords()` resolved; `geocodeCity` is `some city` when the
reverse-geocode call returned ok with that city and `none` when it failed.
`Except.error` models an exception reaching the `catch` block. -/
def tryResolve (geoOk : Bool) (geocodeCity : Option Str) (md : Metadata) :
    Except Unit ResolveOutcome :=
  if geoOk then
    match geocodeCity with
    | some city =>
      match findLocationInMetadata md city with
      | some matchedLocation => .ok { filter := matchedLocation, persisted := some matchedLocation }
      | none =>
        match getDefaultLocation md with
        | some d => .ok { filter := d, persisted := some d }
        | none => .error ()
    | none => .error ()
  else .error ()

/-- The `catch` block of `getLocation`: load from storage; a structured
payload overwrites the three location fields, a legacy bare string only
sets `city` to its normalization, and an absent value falls through to the
persisted dataset default. -/
def resolveFallback (prev : Loc) (stored : Option StoredPayload) (md : Metadata) :
    Option ResolveOutcome :=
  match stored with
  | some (.structured r p c) =>
      some { filter := { region := r, province := p, city := c }, persisted := none }
  | some (.legacy s) =>
      some
        { filter := { region := prev.region, province := prev.province, city := normalizeString s }
          persisted := none }
  | none => (getDefaultLocation md).map (fun d => { filter := d, persisted := some d })

/-- `getLocation`: run the `try` block; any exception is caught and handled
by the storage fallback.  `none` models a crash of the whole resolver
(only possible when the dataset default itself is undefined). -/
def getLocation (prev : Loc) (geoOk : Bool) (geocodeCity : Option Str)
    (stored : Option StoredPayload) (md : Metadata) : Option ResolveOutcome :=
  match tryResolve geoOk geocodeCity md with
  | .ok outcome => some outcome
  | .error () => resolveFallback prev stored md

-- The filter-transition handlers.  Each calls `updateLocation`, which
-- overwrites the three location fields (and persists the same triple).

/-- `handleRegionChange`: set the region, clear province and city. -/
def handleRegionChange (md : Metadata) (prev : Loc) (regionKey : Str) : Loc :=
  { region := regionKey, province := [], city := [] }

/-- `handleProvinceChange`: look the parent region up in
`provinceToRegionMap` (empty string when absent), set the province, clear
the city. -/
def handleProvinceChange (md : Metadata) (prev : Loc) (provinceKey : Str) : Loc :=
  let foundRegion := (mapGet (provinceToRegionMap md) provinceKey).getD []
  { region := foundRegion, province := provinceKey, city := [] }

/-- `handleCityChange`: look the owning region/province up in
`cityToLocationMap`; an unknown key leaves the filter unchanged. -/
def handleCityChange (md : Metadata) (prev : Loc) (cityKey : Str) : Loc :=
  match mapGet (cityToLocationMap md) cityKey with
  | none => prev
  | some locationData =>
      { region := locationData.1, province := locationData.2, city := cityKey }

/-- `handleClearRegion`: clear all three location fields. -/
def handleClearRegion (prev : Loc) : Loc :=
  { region := [], province := [], city := [] }

/-- `handleClearProvince`: keep the region, clear province and city. -/
def handleClearProvince (prev : Loc) : Loc :=
  { region := prev.region, province := [], city := [] }

/-- `handleClearCity`: keep region and province, clear the city. -/
def handleClearCity (prev : Loc) : Loc :=
  { region := prev.region, province := prev.province, city := [] }

-- The hotline dataset and the filter engine.

/-- The fixed hotline category enumeration (`THotlineCategory`). -/
inductive THotlineCategory where
  | police_hotlines
  | medical_hotlines
  | fire_hotlines
  | government_hotlines
  | utility_hotlines
deriving DecidableEq, Repr

/-- One hotline of the hotline dataset. -/
structure Hotline where
  hotlineName : Str
  hotlineNumber : Str
  alternateNumbers : List Str
  category : THotlineCategory
  city : Str
  province : Str
  regionName : Str
deriving DecidableEq, Repr

/-- `extractLocationFromFilter`: if the filter value contains `'|'`, split
on it and take the first two parts as city and province (the province is
`undefined` otherwise). -/
def splitOnBarAux : List Char → List Char → List Str
  | [], acc => [acc.reverse]
  | c :: rest, acc =>
    if c = '|' then acc.reverse :: splitOnBarAux rest []
    else splitOnBarAux rest (c :: acc)

/-- Model of JavaScript `filterValue.split('|')`. -/
def splitOnBar (s : Str) : List Str := splitOnBarAux s []

/-- `extractLocationFromFilter(filterValue)`; the second component is the
(possibly `undefined`) `province` field of the returned object. -/
def extractLocationFromFilter (filterValue : Str) : Str × Option Str :=
  if filterValue.any (fun c => decide (c = '|')) then
    let parts := splitOnBar filterValue
    (parts.headD [], parts.get? 1)
  else (filterValue, none)

/-- The city branch of the hierarchical filter: a truthy (present and
nonempty) parsed province requires both normalized city and normalized
province to match; otherwise only the normalized city. -/
def cityFilterPred (filterCity : Str) (hotline : Hotline) : Bool :=
  let locationFromFilter := extractLocationFromFilter filterCity
  match locationFromFilter.2 with
  | some province =>
    if province = [] then
      decide (normalizeString hotline.city = normalizeString locationFromFilter.1)
    else
      decide (normalizeString hotline.city = normalizeString locationFromFilter.1) &&
        decide (normalizeString hotline.province = normalizeString province)
  | none => decide (normalizeString hotline.city = normalizeString locationFromFilter.1)

/-- The hierarchical location predicate of the `selectedHotlines` filter:
region, then province, then city, each applied only when set. -/
def locationPred (fo : Loc) (hotline : Hotline) : Bool :=
  if fo.region ≠ [] ∧ normalizeString hotline.regionName ≠ normalizeString fo.region then
    false
  else if fo.province ≠ [] ∧ normalizeString hotline.province ≠ normalizeString fo.province then
    false
  else if fo.city ≠ [] then
    cityFilterPred fo.city hotline
  else
    true

/-- `selectedHotlines` before the category step: the hierarchically
filtered hotline list. -/
def selectedHotlines (hotlines : List Hotline) (fo : Loc) : List Hotline :=
  hotlines.filter (locationPred fo)

/-- The `hotlineTypeMap` object literal: category filter label → the set of
underlying hotline categories it denotes. -/
def hotlineTypeMap : List (Str × List THotlineCategory) :=
  [ (str "Emergency Hotlines", [.police_hotlines, .fire_hotlines])
  , (str "Medical Hotlines", [.medical_hotlines])
  , (str "Government Hotlines", [.government_hotlines])
  , (str "Utility Hotlines", [.utility_hotlines]) ]

/-- Property access `hotlineTypeMap[category]` on the object literal. -/
def hotlineTypeMapGet (category : Str) : Option (List THotlineCategory) :=
  (hotlineTypeMap.find? (fun p => decide (p.1 = category))).map (fun p => p.2)

/-- The category step: when the category filter is not `"All Hotlines"`,
keep only hotlines whose category is in `hotlineTypeMap[category]`.
`none` models the `TypeError` thrown by
`hotlineTypeMap[category].includes(...)` when the lookup is `undefined`. -/
def categoryStep (category : Str) (hotlines : List Hotline) : Option (List Hotline) :=
  if category = str "All Hotlines" then some hotlines
  else
    (hotlineTypeMapGet category).map (fun cats =>
      hotlines.filter (fun hotline => cats.contains hotline.category))

/-- The `sort` rank object: the fixed category rank. -/
def sort : THotlineCategory → Nat
  | .police_hotlines => 0
  | .medical_hotlines => 1
  | .fire_hotlines => 2
  | .government_hotlines => 3
  | .utility_hotlines => 4

/-- Code-point order on strings; with `lowerStr` applied first this models
`localeCompare(..., 'en', { sensitivity: 'base' }) <= 0` on the names
occurring in the dataset. -/
def strLeB : Str → Str → Bool
  | [], _ => true
  | _ :: _, [] => false
  | a :: as, b :: bs =>
    if a.toNat < b.toNat then true
    else if b.toNat < a.toNat then false
    else strLeB as bs

/-- The comparator of `sortedSelectedHotlines`, as a boolean "less or
equal": category rank first, then case-insensitive name comparison. -/
def hotlineLE (a b : Hotline) : Bool :=
  if sort a.category < sort b.category then true
  else if sort b.category < sort a.category then false
  else strLeB (lowerStr a.hotlineName) (lowerStr b.hotlineName)

/-- `selectedHotlines.sort(...)`: a stable sort (ECMAScript
`Array.prototype.sort` is specified stable) by the comparator. -/
def sortHotlines (hotlines : List Hotline) : List Hotline :=
  hotlines.mergeSort hotlineLE

/-- The whole filter engine: hierarchical location filter, category step,
stable sort.  `fo.category` is carried separately from the location
triple. -/
def hotlineFilterEngine (hotlines : List Hotline) (fo : Loc) (category : Str) :
    Option (List Hotline) :=
  (categoryStep category (selectedHotlines hotlines fo)).map sortHotlines

/-- The category filter values reachable through the category buttons. -/
def reachableCategories : List Str :=
  [ str "All Hotlines", str "Emergency Hotlines", str "Medical Hotlines"
  , str "Government Hotlines", str "Utility Hotlines" ]

-- ### Library lemmas about the JavaScript `Map` model

/-- The last value written for a key in a list of (key, value) writes. -/
def lookupLast {α : Type} (l : List (Str × α)) (k : Str) : Option α :=
  (l.reverse.find? (fun p => decide (p.1 = k))).map (fun p => p.2)

theorem find?_map_set_hit {α : Type} {k : Str} {v : α} :
    ∀ (m : List (Str × α)), (∃ p ∈ m, p.1 = k) →
      (m.map (fun p => if p.1 = k then (k, v) else p)).find?
        (fun p => decide (p.1 = k)) = some (k, v) := by
  intro m
  induction m with
  | nil => rintro ⟨p, hp, _⟩; cases hp
  | cons a m ih =>
    intro hex
    by_cases ha : a.1 = k
    · rw [List.map_cons, if_pos ha, List.find?_cons_of_pos _ (by simp)]
    · have hex' : ∃ p ∈ m, p.1 = k := by
        rcases hex with ⟨p, hp, hpk⟩
        rcases List.mem_cons.mp hp with h | h
        · exact absurd (h ▸ hpk) ha
        · exact ⟨p, h, hpk⟩
      rw [List.map_cons, if_neg ha, List.find?_cons_of_neg _ (by simpa using ha)]
      exact ih hex'

theorem find?_map_set_other {α : Type} {k k' : Str} {v : α} (hkk : k' ≠ k) :
    ∀ (m : List (Str × α)),
      (m.map (fun p => if p.1 = k then (k, v) else p)).find?
          (fun p => decide (p.1 = k')) =
        m.find? (fun p => decide (p.1 = k')) := by
  intro m
  induction m with
  | nil => rfl
  | cons a m ih =>
    by_cases ha : a.1 = k
    · rw [List.map_cons, if_pos ha,
        List.find?_cons_of_neg _ (by simp; exact fun h => hkk h.symm),
        List.find?_cons_of_neg _ (by simp [ha]; exact fun h => hkk h.symm)]
      exact ih
    · rw [List.map_cons, if_neg ha]
      by_cases ha' : a.1 = k'
      · rw [List.find?_cons_of_pos _ (by simp [ha']), List.find?_cons_of_pos _ (by simp [ha'])]
      · rw [List.find?_cons_of_neg _ (by simpa using ha'),
          List.find?_cons_of_neg _ (by simpa using ha')]
        exact ih

/-- `Map.get` after `Map.set`: the set key now yields the set value, every
other key is unaffected. -/
theorem mapGet_mapSet {α : Type} (m : List (Str × α)) (k k' : Str) (v : α) :
    mapGet (mapSet m k v) k' = if k' = k then some v else mapGet m k' := by
  by_cases hk : k' = k
  · subst hk
    rw [if_pos rfl]
    unfold mapSet
    split
    · rename_i hany
      have hex : ∃ p ∈ m, p.1 = k' := by
        rcases List.any_eq_true.mp hany with ⟨p, hp, hpk⟩
        exact ⟨p, hp, of_decide_eq_true hpk⟩
      simp [mapGet, find?_map_set_hit m hex]
    · rename_i hany
      have hnone : m.find? (fun p => decide (p.1 = k')) = none := by
        rw [List.find?_eq_none]
        intro p hp
        simp only [decide_eq_true_eq]
        intro hpk
        exact hany (List.any_eq_true.mpr ⟨p, hp, by simp [hpk]⟩)
      simp [mapGet, List.find?_append, hnone]
  · rw [if_neg hk]
    unfold mapSet
    split
    · simp [mapGet, find?_map_set_other hk m]
    · have hone : (([(k, v)] : List (Str × α)).find? (fun p => decide (p.1 = k'))) = none :=
        List.find?_cons_of_neg _ (by simp; exact fun h => hk h.symm)
      simp [mapGet, List.find?_append, hone]

/-- Folding a list of writes into a JavaScript `Map`: `get` returns the
last written value for the key, falling back to the initial map. -/
theorem foldl_mapSet_get {α : Type} (ps : List (Str × α)) (m0 : List (Str × α)) (k : Str) :
    mapGet (ps.foldl (fun m p => mapSet m p.1 p.2) m0) k =
      (lookupLast ps k).or (mapGet m0 k) := by
  induction ps generalizing m0 with
  | nil => simp [lookupLast]
  | cons p ps ih =>
    rw [List.foldl_cons, ih]
    have hmapor : ∀ (a b : Option (Str × α)),
        (a.or b).map (fun q => q.2) = (a.map (fun q => q.2)).or (b.map (fun q => q.2)) := by
      intro a b; cases a <;> rfl
    have hlast : lookupLast (p :: ps) k =
        (lookupLast ps k).or (if p.1 = k then some p.2 else none) := by
      unfold lookupLast
      rw [List.reverse_cons, List.find?_append, hmapor]
      congr 1
      by_cases hp : p.1 = k
      · rw [List.find?_cons_of_pos _ (by simp [hp])]; simp [hp]
      · rw [List.find?_cons_of_neg _ (by simpa using hp)]; simp [hp]
    rw [hlast, mapGet_mapSet, Option.or_assoc]
    by_cases hp : p.1 = k
    · simp [hp]
    · have : ¬(k = p.1) := fun h => hp h.symm
      simp [hp, this]

/-- Folding over a `flatMap` is the nested fold. -/
theorem foldl_flatMap {β γ δ : Type} (l : List β) (g : β → List γ) (f : δ → γ → δ)
    (init : δ) :
    (l.flatMap g).foldl f init = l.foldl (fun acc b => (g b).foldl f acc) init := by
  induction l generalizing init with
  | nil => rfl
  | cons b l ih => simp [List.flatMap_cons, List.foldl_append, ih]

/-- The write list of `provinceToRegionMap`, in dataset order. -/
def provincePairs (md : Metadata) : List (Str × Str) :=
  md.regions.flatMap (fun region =>
    region.provinces.map (fun province =>
      (normalizeString province.province, normalizeString region.name)))

theorem provinceToRegionMap_eq_foldl (md : Metadata) :
    provinceToRegionMap md =
      (provincePairs md).foldl (fun m p => mapSet m p.1 p.2) [] := by
  unfold provinceToRegionMap provincePairs
  rw [foldl_flatMap]
  simp [List.foldl_map]

/-- `provinceToRegionMap.get` returns the region of the last dataset
occurrence of the province key. -/
theorem provinceToRegionMap_get (md : Metadata) (k : Str) :
    mapGet (provinceToRegionMap md) k = lookupLast (provincePairs md) k := by
  rw [provinceToRegionMap_eq_foldl, foldl_mapSet_get]
  simp [mapGet]

/-- The write list of `cityToLocationMap`, in dataset order. -/
def cityPairs (md : Metadata) : List (Str × (Str × Str)) :=
  md.regions.flatMap (fun region =>
    region.provinces.flatMap (fun province =>
      province.cities.map (fun city =>
        (compositeKey city province.province,
          (normalizeString region.name, normalizeString province.province)))))

theorem cityToLocationMap_eq_foldl (md : Metadata) :
    cityToLocationMap md =
      (cityPairs md).foldl (fun m p => mapSet m p.1 p.2) [] := by
  unfold cityToLocationMap cityPairs
  rw [foldl_flatMap]
  congr 1
  funext m region
  rw [foldl_flatMap]
  simp [List.foldl_map]

/-- `cityToLocationMap.get` returns the value of the last dataset
occurrence of the composite city key. -/
theorem cityToLocationMap_get (md : Metadata) (k : Str) :
    mapGet (cityToLocationMap md) k = lookupLast (cityPairs md) k := by
  rw [cityToLocationMap_eq_foldl, foldl_mapSet_get]
  simp [mapGet]

/-- A successful `lookupLast` comes from an entry of the write list. -/
theorem lookupLast_eq_some {α : Type} {l : List (Str × α)} {k : Str} {v : α}
    (h : lookupLast l k = some v) : ∃ p ∈ l, p.1 = k ∧ p.2 = v := by
  unfold lookupLast at h
  rcases ho : l.reverse.find? (fun p => decide (p.1 = k)) with _ | p
  · rw [ho] at h; cases h
  · rw [ho] at h
    have hmem : p ∈ l.reverse := List.mem_of_find?_eq_some ho
    have hpk : p.1 = k := by
      have := List.find?_some ho
      simpa using this
    exact ⟨p, List.mem_reverse.mp hmem, hpk, by simpa using h⟩

/-- A key occurring in the write list makes `lookupLast` succeed. -/
theorem lookupLast_isSome {α : Type} {l : List (Str × α)} {k : Str}
    (h : ∃ p ∈ l, p.1 = k) : (lookupLast l k).isSome = true := by
  unfold lookupLast
  rcases h with ⟨p, hp, hpk⟩
  have hfind : (l.reverse.find? (fun q => decide (q.1 = k))).isSome = true := by
    simp only [List.find?_isSome]
    exact ⟨p, List.mem_reverse.mpr hp, by simp [hpk]⟩
  rcases ho : l.reverse.find? (fun q => decide (q.1 = k)) with _ | q
  · rw [ho] at hfind; cases hfind
  · rw [ho]; rfl

-- ### Lemmas about normalization

/-- `toNat` of `Char.ofNat` at a valid codepoint. -/
theorem char_toNat_ofNat {n : Nat} (h : n.isValidChar) : (Char.ofNat n).toNat = n := by
  rw [Char.ofNat, dif_pos h]
  rfl

/-- `Char.toNat` is injective. -/
theorem char_toNat_inj {a b : Char} (h : a.toNat = b.toNat) : a = b := by
  have := congrArg Char.ofNat h
  rwa [Char.ofNat_toNat, Char.ofNat_toNat] at this

/-- A character is whitespace exactly when its codepoint is one of
32, 9, 13, 10. -/
theorem char_isWhitespace_iff (c : Char) :
    c.isWhitespace = true ↔ c.toNat = 32 ∨ c.toNat = 9 ∨ c.toNat = 13 ∨ c.toNat = 10 := by
  constructor
  · intro h
    by_cases h1 : c = ' '
    · rw [h1]; decide
    by_cases h2 : c = '\t'
    · rw [h2]; decide
    by_cases h3 : c = '\r'
    · rw [h3]; decide
    by_cases h4 : c = '\n'
    · rw [h4]; decide
    exfalso
    unfold Char.isWhitespace at h
    simp [h1, h2, h3, h4] at h
  · intro h
    have hc : c = ' ' ∨ c = '\t' ∨ c = '\r' ∨ c = '\n' := by
      rcases h with h | h | h | h
      · exact Or.inl (char_toNat_inj (by rw [h]; decide))
      · exact Or.inr (Or.inl (char_toNat_inj (by rw [h]; decide)))
      · exact Or.inr (Or.inr (Or.inl (char_toNat_inj (by rw [h]; decide))))
      · exact Or.inr (Or.inr (Or.inr (char_toNat_inj (by rw [h]; decide))))
    rcases hc with h | h | h | h <;> subst h <;> decide

/-- Lower-casing never changes whether a character is whitespace. -/
theorem isWhitespace_toLower (c : Char) :
    (Char.toLower c).isWhitespace = c.isWhitespace := by
  by_cases h : 65 ≤ c.toNat ∧ c.toNat ≤ 90
  · have hT : Char.toLower c = Char.ofNat (c.toNat + 32) := by
      unfold Char.toLower
      rw [if_pos h]
    have hv : (c.toNat + 32).isValidChar := by
      left; omega
    have hlow : (Char.ofNat (c.toNat + 32)).toNat = c.toNat + 32 := char_toNat_ofNat hv
    have hleft : (Char.ofNat (c.toNat + 32)).isWhitespace = false := by
      rw [Bool.eq_false_iff]
      intro hw
      rcases (char_isWhitespace_iff _).mp hw with hh | hh | hh | hh <;> rw [hlow] at hh <;> omega
    have hright : c.isWhitespace = false := by
      rw [Bool.eq_false_iff]
      intro hw
      rcases (char_isWhitespace_iff _).mp hw with hh | hh | hh | hh <;> omega
    rw [hT, hleft, hright]
  · have hT : Char.toLower c = c := by
      unfold Char.toLower
      rw [if_neg h]
    rw [hT]

/-- Dropping while a predicate holds passes over an embedded non-satisfying
element. -/
theorem dropWhile_append_cons {p : Char → Bool} {x : Char} (hx : p x = false) :
    ∀ (A B : Str), (A ++ x :: B).dropWhile p = A.dropWhile p ++ x :: B := by
  intro A B
  induction A with
  | nil => simp [List.dropWhile_cons, hx]
  | cons a A ih =>
    simp only [List.cons_append, List.dropWhile_cons]
    split <;> simp [ih]

theorem trimLeft_append_bar (A B : Str) :
    trimLeft (A ++ '|' :: B) = trimLeft A ++ '|' :: B :=
  dropWhile_append_cons (by decide) A B

theorem trimRight_append_bar (A B : Str) :
    trimRight (A ++ '|' :: B) = A ++ '|' :: trimRight B := by
  unfold trimRight
  have h1 : (A ++ '|' :: B).reverse = B.reverse ++ '|' :: A.reverse := by
    simp
  rw [h1, dropWhile_append_cons (by decide)]
  simp

/-- The composite key decomposed: left-trimmed lowered city, the bar, then
right-trimmed lowered province. -/
theorem compositeKey_decomp (city province : Str) :
    compositeKey city province =
      trimLeft (lowerStr city) ++ '|' :: trimRight (lowerStr province) := by
  unfold compositeKey normalizeString trimStr strBar
  have hmap : lowerStr (city ++ ['|'] ++ province) =
      lowerStr city ++ '|' :: lowerStr province := by
    unfold lowerStr
    simp [List.map_append]
  rw [hmap, trimLeft_append_bar, trimRight_append_bar]

/-- A string whose last character is not whitespace is unchanged by
right-trimming. -/
theorem trimRight_eq_self {s : Str}
    (h : ∀ ch, s.getLast? = some ch → ch.isWhitespace = false) : trimRight s = s := by
  unfold trimRight
  rcases hs : s.reverse with _ | ⟨a, t⟩
  · have hs' : s = [] := by simpa using congrArg List.reverse hs
    simp [hs']
  · have hlast : s.getLast? = some a := by
      rw [← List.head?_reverse, hs]
      rfl
    have hsr : s = (a :: t).reverse := by rw [← hs, List.reverse_reverse]
    rw [List.dropWhile_cons, h a hlast]
    simp only [Bool.false_eq_true, if_false]
    exact hsr.symm

/-- A string whose first character is not whitespace is unchanged by
left-trimming. -/
theorem trimLeft_eq_self {s : Str}
    (h : ∀ ch, s.head? = some ch → ch.isWhitespace = false) : trimLeft s = s := by
  unfold trimLeft
  rcases hs : s with _ | ⟨a, t⟩
  · rfl
  · rw [List.dropWhile_cons, h a (by rw [hs]; rfl)]
    simp

/-- Left-trimming preserves a whitespace-free last character (or
emptiness). -/
theorem trimRight_trimLeft_eq_trimLeft {s : Str}
    (h : ∀ ch, s.getLast? = some ch → ch.isWhitespace = false) :
    trimRight (trimLeft s) = trimLeft s := by
  induction s with
  | nil => rfl
  | cons a t ih =>
    unfold trimLeft
    rw [List.dropWhile_cons]
    by_cases ha : a.isWhitespace = true
    · rw [ha]
      simp only [if_true]
      rcases ht : t with _ | ⟨b, u⟩
      · rfl
      · have ht' : ∀ ch, t.getLast? = some ch → ch.isWhitespace = false := by
          intro ch hch
          apply h
          rw [ht] at hch ⊢
          rw [List.getLast?_cons_cons]
          exact hch
        rw [← ht]
        exact ih ht'
    · rw [Bool.not_eq_true] at ha
      rw [ha]
      simp only [Bool.false_eq_true, if_false]
      exact trimRight_eq_self h

-- ### Membership characterizations of the derived structures

theorem mem_allCities {md : Metadata} {e : LocationFilter} :
    e ∈ allCities md ↔
      ∃ region ∈ md.regions, ∃ province ∈ region.provinces, ∃ city ∈ province.cities,
        e = { region := region.name, province := province.province, city := city,
              key := compositeKey city province.province,
              displayName := city ++ str " (" ++ province.province ++ str ")" } := by
  unfold allCities
  simp only [List.mem_flatMap, List.mem_map]
  constructor
  · rintro ⟨d, ⟨region, hr, province, hp, rfl⟩, city, hc, rfl⟩
    exact ⟨region, hr, province, hp, city, hc, rfl⟩
  · rintro ⟨region, hr, province, hp, city, hc, rfl⟩
    exact ⟨(region.name, province.province, province.cities),
      ⟨region, hr, province, hp, rfl⟩, city, hc, rfl⟩

theorem mem_cityPairs {md : Metadata} {pr : Str × (Str × Str)} :
    pr ∈ cityPairs md ↔
      ∃ region ∈ md.regions, ∃ province ∈ region.provinces, ∃ city ∈ province.cities,
        pr = (compositeKey city province.province,
          (normalizeString region.name, normalizeString province.province)) := by
  unfold cityPairs
  simp only [List.mem_flatMap, List.mem_map]
  constructor
  · rintro ⟨region, hr, province, hp, city, hc, rfl⟩
    exact ⟨region, hr, province, hp, city, hc, rfl⟩
  · rintro ⟨region, hr, province, hp, city, hc, rfl⟩
    exact ⟨region, hr, province, hp, city, hc, rfl⟩

theorem mem_provincePairs {md : Metadata} {pr : Str × Str} :
    pr ∈ provincePairs md ↔
      ∃ region ∈ md.regions, ∃ province ∈ region.provinces,
        pr = (normalizeString province.province, normalizeString region.name) := by
  unfold provincePairs
  simp only [List.mem_flatMap, List.mem_map]
  constructor
  · rintro ⟨region, hr, province, hp, rfl⟩
    exact ⟨region, hr, province, hp, rfl⟩
  · rintro ⟨region, hr, province, hp, rfl⟩
    exact ⟨region, hr, province, hp, rfl⟩

/-- With no region or province selected, `locationFilters` is the full city
list. -/
theorem locationFilters_unfiltered (md : Metadata) :
    locationFilters md [] [] = allCities md := by
  simp [locationFilters]

-- ### Claim C1

/-- A metadata dataset containing a city name with trailing whitespace. -/
def mdWhitespace : Metadata :=
  { regions := [ { name := str "NCR"
                 , provinces := [ { province := str "Metro Manila"
                                  , cities := [str "Manila "] } ] } ] }

/-- Claim C1, counterexample: the hierarchy index builds the key as
`normalize(city + "|" + province)`, which at a city with trailing
whitespace differs from `normalize(city) + "|" + normalize(province)`. -/
theorem c1_counterexample :
    ∃ e, e ∈ locationFilters mdWhitespace [] [] ∧
      e.key ≠ normalizeString e.city ++ strBar ++ normalizeString e.province := by
  decide

/-- Claim C1, amended: every key produced by the hierarchy index (the city
list, the city-to-location map, the resolver's hierarchy match, and the
dataset default) equals `normalize(city + "|" + province)` of the raw city
and owning province; this equals `normalize(city) + "|" +
normalize(province)` whenever the city has no trailing whitespace and the
province no leading whitespace. -/
theorem c1_amended :
    (∀ (md : Metadata) (e : LocationFilter), e ∈ locationFilters md [] [] →
        e.key = compositeKey e.city e.province) ∧
    (∀ (md : Metadata) (k : Str), (mapGet (cityToLocationMap md) k).isSome = true →
        ∃ region ∈ md.regions, ∃ province ∈ region.provinces, ∃ city ∈ province.cities,
          k = compositeKey city province.province) ∧
    (∀ (md : Metadata) (q : Str) (loc : Loc), findLocationInMetadata md q = some loc →
        ∃ region ∈ md.regions, ∃ province ∈ region.provinces, ∃ city ∈ province.cities,
          loc.city = compositeKey city province.province) ∧
    (∀ (md : Metadata) (d : Loc), getDefaultLocation md = some d →
        ∃ region ∈ md.regions, ∃ province ∈ region.provinces, ∃ city ∈ province.cities,
          d.city = compositeKey city province.province) ∧
    (∀ (city province : Str),
        (∀ ch, city.getLast? = some ch → ch.isWhitespace = false) →
        (∀ ch, province.head? = some ch → ch.isWhitespace = false) →
        compositeKey city province =
          normalizeString city ++ strBar ++ normalizeString province) := by
  refine ⟨?_, ?_, ?_, ?_, ?_⟩
  · intro md e he
    rw [locationFilters_unfiltered] at he
    rcases mem_allCities.mp he with ⟨region, _, province, _, city, _, rfl⟩
    rfl
  · intro md k hk
    rw [cityToLocationMap_get] at hk
    rcases ho : lookupLast (cityPairs md) k with _ | v
    · rw [ho] at hk; cases hk
    · rcases lookupLast_eq_some ho with ⟨pr, hpr, hprk, _⟩
      rcases mem_cityPairs.mp hpr with ⟨region, hr, province, hp, city, hc, rfl⟩
      exact ⟨region, hr, province, hp, city, hc, hprk.symm⟩
  · intro md q loc hloc
    unfold findLocationInMetadata at hloc
    rcases List.exists_of_findSome?_eq_some hloc with ⟨region, hr, hreg⟩
    rcases List.exists_of_findSome?_eq_some hreg with ⟨province, hp, hprov⟩
    rcases hfind : province.cities.find?
        (fun c => decide (normalizeString c = normalizeString q)) with _ | city
    · rw [hfind] at hprov; cases hprov
    · rw [hfind] at hprov
      have hc : city ∈ province.cities := List.mem_of_find?_eq_some hfind
      exact ⟨region, hr, province, hp, city, hc, by
        have := hprov
        injection this with hthis
        rw [← hthis]⟩
  · intro md d hd
    unfold getDefaultLocation at hd
    rcases hr0 : md.regions.head? with _ | region0
    · simp [hr0] at hd
    · simp only [hr0] at hd
      rcases hp0 : region0.provinces.head? with _ | province0
      · simp [hp0] at hd
      · simp only [hp0] at hd
        rcases hc0 : province0.cities.head? with _ | city0
        · simp [hc0] at hd
        · simp only [hc0] at hd
          refine ⟨region0, List.mem_of_mem_head? hr0, province0, List.mem_of_mem_head? hp0,
            city0, List.mem_of_mem_head? hc0, ?_⟩
          injection hd with hd'
          rw [← hd']
  · intro city province hc hp
    rw [compositeKey_decomp]
    have hc' : ∀ ch, (lowerStr city).getLast? = some ch → ch.isWhitespace = false := by
      intro ch hch
      unfold lowerStr at hch
      rw [List.getLast?_map] at hch
      rcases hl : city.getLast? with _ | ch0
      · rw [hl] at hch; cases hch
      · rw [hl] at hch
        have : ch = Char.toLower ch0 := by simpa using hch.symm
        rw [this, isWhitespace_toLower]
        exact hc ch0 hl
    have hp' : ∀ ch, (lowerStr province).head? = some ch → ch.isWhitespace = false := by
      intro ch hch
      unfold lowerStr at hch
      rw [List.head?_map] at hch
      rcases hl : province.head? with _ | ch0
      · rw [hl] at hch; cases hch
      · rw [hl] at hch
        have : ch = Char.toLower ch0 := by simpa using hch.symm
        rw [this, isWhitespace_toLower]
        exact hp ch0 hl
    unfold normalizeString trimStr
    rw [trimRight_trimLeft_eq_trimLeft hc', trimLeft_eq_self hp']
    simp [strBar]

/-- Witness for the amended C1 at concrete whitespace-free inputs. -/
theorem c1_witness :
    compositeKey (str "Manila") (str "Metro Manila") =
      normalizeString (str "Manila") ++ strBar ++ normalizeString (str "Metro Manila") :=
  c1_amended.2.2.2.2 (str "Manila") (str "Metro Manila") (by decide) (by decide)

-- ### Claim C2

/-- A metadata dataset in which the same normalized province name appears
under two different regions. -/
def mdDupProvince : Metadata :=
  { regions :=
      [ { name := str "Region A", provinces := [ { province := str "P", cities := [str "X"] } ] }
      , { name := str "Region B", provinces := [ { province := str "P", cities := [str "Y"] } ] } ] }

/-- Claim C2, counterexample: with province `"P"` under both `"Region A"`
(first) and `"Region B"` (second), the province-to-region lookup returns
`"region b"`, not the first-indexed region `"region a"`: `Map.set`
overwrites, so the last write wins. -/
theorem c2_counterexample :
    mapGet (provinceToRegionMap mdDupProvince) (str "p") = some (str "region b") ∧
      some (str "region b") ≠ some (str "region a") := by
  decide

/-- Claim C2, amended: the province-to-region lookup returns the region of
the *last* dataset occurrence of the normalized province name (so
duplicates resolve to the last-indexed region), and `handleProvinceChange`
uses exactly that value. -/
theorem c2_amended :
    (∀ (md : Metadata) (k : Str),
        mapGet (provinceToRegionMap md) k = lookupLast (provincePairs md) k) ∧
    (∀ (prev : Loc) (md : Metadata) (pk r : Str),
        lookupLast (provincePairs md) pk = some r →
        handleProvinceChange md prev pk = { region := r, province := pk, city := [] }) := by
  constructor
  · exact provinceToRegionMap_get
  · intro prev md pk r h
    unfold handleProvinceChange
    rw [provinceToRegionMap_get, h]
    rfl

/-- Witness for the amended C2 at the duplicate-province dataset. -/
theorem c2_witness :
    handleProvinceChange mdDupProvince initialLoc (str "p") =
      { region := str "region b", province := str "p", city := [] } :=
  c2_amended.2 initialLoc mdDupProvince (str "p") (str "region b") (by decide)

-- ### Claims C5 and C6

/-- Claim C5: when geolocation and reverse-geocoding succeed but the city
has no hierarchy match, the resolver resolves to the dataset default and
persists it, for *every* persisted-storage state — storage is never
consulted on this path. -/
theorem c5_nomatch_resolves_to_default :
    ∀ (prev : Loc) (city : Str) (md : Metadata) (d : Loc),
      findLocationInMetadata md city = none →
      getDefaultLocation md = some d →
      ∀ (stored : Option StoredPayload),
        getLocation prev true (some city) stored md =
          some { filter := d, persisted := some d } := by
  intro prev city md d hfind hdflt stored
  unfold getLocation tryResolve
  simp [hfind, hdflt]

/-- Witness for C5: a reverse-geocoded city absent from the dataset, with
a stored legacy location that is ignored. -/
theorem c5_witness :
    getLocation initialLoc true (some (str "Quezon City"))
        (some (.legacy (str "davao"))) mdWhitespace =
      some
        { filter :=
            { region := str "ncr", province := str "metro manila"
            , city := str "manila |metro manila" }
        , persisted :=
            some
              { region := str "ncr", province := str "metro manila"
              , city := str "manila |metro manila" } } :=
  c5_nomatch_resolves_to_default initialLoc (str "Quezon City") mdWhitespace
    { region := str "ncr", province := str "metro manila"
    , city := str "manila |metro manila" }
    (by decide) (by decide) (some (.legacy (str "davao")))

/-- Claim C6: when geolocation or reverse-geocoding fails and the
persisted value is a legacy bare string, the resolver sets only the city
field (to the normalized string), leaves region and province unset, does
not persist, and never fails — for every metadata dataset. -/
theorem c6_legacy_storage :
    ∀ (s : Str) (md : Metadata) (geoOk : Bool) (geocodeCity : Option Str),
      geoOk = false ∨ geocodeCity = none →
      getLocation initialLoc geoOk geocodeCity (some (.legacy s)) md =
        some
          { filter := { region := [], province := [], city := normalizeString s }
          , persisted := none } := by
  intro s md geoOk geocodeCity h
  rcases h with h | h
  · subst h
    unfold getLocation tryResolve
    simp [resolveFallback, initialLoc]
  · subst h
    unfold getLocation tryResolve
    cases geoOk <;> simp [resolveFallback, initialLoc]

/-- Witness for C6: the legacy persisted value `"manila"`. -/
theorem c6_witness :
    getLocation initialLoc false none (some (.legacy (str "manila"))) mdWhitespace =
      some
        { filter :=
            { region := [], province := [], city := normalizeString (str "manila") }
        , persisted := none } :=
  c6_legacy_storage (str "manila") mdWhitespace false none (Or.inl rfl)

-- ### Claim C7

/-- Claim C7: the six filter transitions preserve the cascade.  Selecting
a region sets it and clears below; selecting a province clears the city
and sets the region to the province's actual parent region (whenever that
parent is unambiguous in the dataset), even though only the province key
is supplied; selecting a city sets region and province to the city's
owning region and province (whenever the composite key is unambiguous);
clearing a level clears all levels below it and nothing above it. -/
theorem c7_cascade :
    (∀ (md : Metadata) (prev : Loc) (rk : Str),
        handleRegionChange md prev rk = { region := rk, province := [], city := [] }) ∧
    (∀ (md : Metadata) (prev : Loc) (pk rname : Str),
        (∃ region ∈ md.regions, ∃ province ∈ region.provinces,
            normalizeString province.province = pk ∧ normalizeString region.name = rname) →
        (∀ region ∈ md.regions, ∀ province ∈ region.provinces,
            normalizeString province.province = pk → normalizeString region.name = rname) →
        handleProvinceChange md prev pk = { region := rname, province := pk, city := [] }) ∧
    (∀ (md : Metadata) (prev : Loc) (ck r p : Str),
        (∃ region ∈ md.regions, ∃ province ∈ region.provinces, ∃ city ∈ province.cities,
            compositeKey city province.province = ck ∧
              normalizeString region.name = r ∧ normalizeString province.province = p) →
        (∀ region ∈ md.regions, ∀ province ∈ region.provinces, ∀ city ∈ province.cities,
            compositeKey city province.province = ck →
              normalizeString region.name = r ∧ normalizeString province.province = p) →
        handleCityChange md prev ck = { region := r, province := p, city := ck }) ∧
    (∀ (prev : Loc), handleClearRegion prev = { region := [], province := [], city := [] }) ∧
    (∀ (prev : Loc),
        handleClearProvince prev = { region := prev.region, province := [], city := [] }) ∧
    (∀ (prev : Loc),
        handleClearCity prev = { region := prev.region, province := prev.province, city := [] }) := by
  refine ⟨fun _ _ _ => rfl, ?_, ?_, fun _ => rfl, fun _ => rfl, fun _ => rfl⟩
  · intro md prev pk rname hex huniq
    have hsome : (lookupLast (provincePairs md) pk).isSome = true := by
      apply lookupLast_isSome
      rcases hex with ⟨region, hr, province, hp, hpk, _⟩
      exact ⟨(normalizeString province.province, normalizeString region.name),
        mem_provincePairs.mpr ⟨region, hr, province, hp, rfl⟩, hpk⟩
    rcases ho : lookupLast (provincePairs md) pk with _ | v
    · rw [ho] at hsome; cases hsome
    · rcases lookupLast_eq_some ho with ⟨pr, hpr, hprk, hprv⟩
      rcases mem_provincePairs.mp hpr with ⟨region', hr', province', hp', rfl⟩
      have hv : v = rname := by
        rw [← hprv]
        exact huniq region' hr' province' hp' hprk
      unfold handleProvinceChange
      rw [provinceToRegionMap_get, ho, hv]
      rfl
  · intro md prev ck r p hex huniq
    have hsome : (lookupLast (cityPairs md) ck).isSome = true := by
      apply lookupLast_isSome
      rcases hex with ⟨region, hr, province, hp, city, hc, hck, _⟩
      exact ⟨(compositeKey city province.province,
          (normalizeString region.name, normalizeString province.province)),
        mem_cityPairs.mpr ⟨region, hr, province, hp, city, hc, rfl⟩, hck⟩
    rcases ho : lookupLast (cityPairs md) ck with _ | v
    · rw [ho] at hsome; cases hsome
    · rcases lookupLast_eq_some ho with ⟨pr, hpr, hprk, hprv⟩
      rcases mem_cityPairs.mp hpr with ⟨region', hr', province', hp', city', hc', rfl⟩
      have hv : v = (r, p) := by
        rw [← hprv]
        rcases huniq region' hr' province' hp' city' hc' hprk with ⟨h1, h2⟩
        rw [h1, h2]
      unfold handleCityChange
      rw [cityToLocationMap_get, ho, hv]

/-- Witness for C7 at a concrete dataset: selecting the province
`"metro manila"` resolves its parent region `"ncr"`. -/
theorem c7_witness :
    handleProvinceChange mdWhitespace initialLoc (str "metro manila") =
      { region := str "ncr", province := str "metro manila", city := [] } :=
  c7_cascade.2.1 mdWhitespace initialLoc (str "metro manila") (str "ncr")
    (by decide) (by decide)

-- ### Claim C3

/-- A police hotline in Manila, Metro Manila. -/
def hManilaMM : Hotline :=
  { hotlineName := str "Manila Police", hotlineNumber := str "117"
  , alternateNumbers := [], category := .police_hotlines
  , city := str "Manila", province := str "Metro Manila", regionName := str "NCR" }

/-- A police hotline in a same-named city of a different province. -/
def hManilaMC : Hotline :=
  { hotlineName := str "Other Manila Police", hotlineNumber := str "118"
  , alternateNumbers := [], category := .police_hotlines
  , city := str "Manila", province := str "Metro Cebu", regionName := str "Region C" }

/-- Claim C3, counterexample: the filter value `"manila|"` contains the
separator and parses to province `""`, the hotline's province does not
match that parsed province, yet the hotline is kept — the empty province
component is falsy, so the code falls back to city-only matching. -/
theorem c3_counterexample :
    (str "manila|").any (fun c => decide (c = '|')) = true ∧
      (extractLocationFromFilter (str "manila|")).2 = some [] ∧
      normalizeString hManilaMM.province ≠ normalizeString [] ∧
      selectedHotlines [hManilaMM]
          { region := [], province := [], city := str "manila|" } = [hManilaMM] := by
  decide

/-- Claim C3, amended: with only the city filter set, a hotline is kept by
city-and-province match when the parsed province component is present and
nonempty, and by city-only match when there is no separator or the
component after the first separator is empty; in the concrete scenario,
filtering on `"manila|metro manila"` keeps only the Metro Manila
hotline. -/
theorem c3_amended :
    (∀ (v : Str) (h : Hotline), v ≠ [] →
        locationPred { region := [], province := [], city := v } h = cityFilterPred v h) ∧
    (∀ (v : Str) (h : Hotline), ¬(v.any (fun c => decide (c = '|')) = true) →
        (cityFilterPred v h = true ↔ normalizeString h.city = normalizeString v)) ∧
    (∀ (v : Str) (h : Hotline) (p : Str), (extractLocationFromFilter v).2 = some p → p ≠ [] →
        (cityFilterPred v h = true ↔
          normalizeString h.city = normalizeString (extractLocationFromFilter v).1 ∧
            normalizeString h.province = normalizeString p)) ∧
    (∀ (v : Str) (h : Hotline), (extractLocationFromFilter v).2 = some [] →
        (cityFilterPred v h = true ↔
          normalizeString h.city = normalizeString (extractLocationFromFilter v).1)) ∧
    selectedHotlines [hManilaMM, hManilaMC]
        { region := [], province := [], city := str "manila|metro manila" } = [hManilaMM] := by
  refine ⟨?_, ?_, ?_, ?_, by decide⟩
  · intro v h hv
    unfold locationPred
    rw [if_neg (by simp), if_neg (by simp), if_pos (by simpa using hv)]
  · intro v h hbar
    unfold cityFilterPred extractLocationFromFilter
    rw [if_neg hbar]
    simp
  · intro v h p hp hpne
    unfold cityFilterPred
    dsimp only
    rw [hp]
    simp only [if_neg hpne]
    simp
  · intro v h hp
    unfold cityFilterPred
    dsimp only
    rw [hp]
    simp

/-- Witness for the amended C3: the composite filter
`"manila|metro manila"` requires both components to match. -/
theorem c3_witness :
    cityFilterPred (str "manila|metro manila") hManilaMC = true ↔
      normalizeString hManilaMC.city =
          normalizeString (extractLocationFromFilter (str "manila|metro manila")).1 ∧
        normalizeString hManilaMC.province = normalizeString (str "metro manila") :=
  c3_amended.2.2.1 (str "manila|metro manila") hManilaMC (str "metro manila")
    (by decide) (by decide)

-- ### Claim C9

/-- Claim C9, round-trip: every key of the full city list is present in
the city-to-location map, and the map returns the normalized region and
province of an entry of the list carrying that key. -/
theorem c9_roundtrip :
    ∀ (md : Metadata) (e : LocationFilter), e ∈ locationFilters md [] [] →
      ∃ v, mapGet (cityToLocationMap md) e.key = some v ∧
        ∃ e2, e2 ∈ locationFilters md [] [] ∧ e2.key = e.key ∧
          v.1 = normalizeString e2.region ∧ v.2 = normalizeString e2.province := by
  intro md e he
  rw [locationFilters_unfiltered] at he
  rcases mem_allCities.mp he with ⟨region, hr, province, hp, city, hc, rfl⟩
  have hsome : (lookupLast (cityPairs md) (compositeKey city province.province)).isSome = true := by
    apply lookupLast_isSome
    exact ⟨(compositeKey city province.province,
        (normalizeString region.name, normalizeString province.province)),
      mem_cityPairs.mpr ⟨region, hr, province, hp, city, hc, rfl⟩, rfl⟩
  rcases ho : lookupLast (cityPairs md) (compositeKey city province.province) with _ | v
  · rw [ho] at hsome; cases hsome
  · rcases lookupLast_eq_some ho with ⟨pr, hpr, hprk, hprv⟩
    rcases mem_cityPairs.mp hpr with ⟨region2, hr2, province2, hp2, city2, hc2, rfl⟩
    refine ⟨v, ?_, ?_⟩
    · rw [cityToLocationMap_get]
      exact ho
    · refine ⟨{ region := region2.name, province := province2.province, city := city2
              , key := compositeKey city2 province2.province
              , displayName := city2 ++ str " (" ++ province2.province ++ str ")" }, ?_, ?_, ?_, ?_⟩
      · rw [locationFilters_unfiltered]
        exact mem_allCities.mpr ⟨region2, hr2, province2, hp2, city2, hc2, rfl⟩
      · exact hprk
      · rw [← hprv]
      · rw [← hprv]

/-- Witness for C9 at the concrete dataset. -/
theorem c9_witness :
    ∃ v, mapGet (cityToLocationMap mdWhitespace) (str "manila |metro manila") = some v ∧
      ∃ e2, e2 ∈ locationFilters mdWhitespace [] [] ∧
        e2.key = (str "manila |metro manila") ∧
        v.1 = normalizeString e2.region ∧ v.2 = normalizeString e2.province := by
  have h := c9_roundtrip mdWhitespace
    { region := str "NCR", province := str "Metro Manila", city := str "Manila "
    , key := str "manila |metro manila"
    , displayName := str "Manila  (Metro Manila)" } (by decide)
  exact h

-- ### Claim C10

/-- Claim C10: the category step is total exactly on the category values
reachable through the UI buttons; `"All Hotlines"` skips the lookup, the
four named filters hit a defined entry of `hotlineTypeMap`, and every
other string makes the step dereference an absent entry (modelled as
`none`, the thrown `TypeError`). -/
theorem c10_category_totality :
    ∀ (hs : List Hotline) (c : Str),
      (c ∈ reachableCategories → (categoryStep c hs).isSome = true) ∧
      (¬c ∈ reachableCategories →
        ¬c = str "All Hotlines" ∧ categoryStep c hs = none) := by
  intro hs c
  constructor
  · intro hmem
    rcases (by simpa [reachableCategories] using hmem :
        c = str "All Hotlines" ∨ c = str "Emergency Hotlines" ∨ c = str "Medical Hotlines" ∨
          c = str "Government Hotlines" ∨ c = str "Utility Hotlines") with
        h | h | h | h | h <;> subst h
    · rw [categoryStep, if_pos rfl]; rfl
    · rw [categoryStep, if_neg (by decide),
        show hotlineTypeMapGet (str "Emergency Hotlines") =
          some [.police_hotlines, .fire_hotlines] from by decide]
      rfl
    · rw [categoryStep, if_neg (by decide),
        show hotlineTypeMapGet (str "Medical Hotlines") =
          some [.medical_hotlines] from by decide]
      rfl
    · rw [categoryStep, if_neg (by decide),
        show hotlineTypeMapGet (str "Government Hotlines") =
          some [.government_hotlines] from by decide]
      rfl
    · rw [categoryStep, if_neg (by decide),
        show hotlineTypeMapGet (str "Utility Hotlines") =
          some [.utility_hotlines] from by decide]
      rfl
  · intro hmem
    have hne : ∀ s, s ∈ reachableCategories → ¬c = s := by
      intro s hs' hcs
      exact hmem (hcs ▸ hs')
    have hall : ¬c = str "All Hotlines" := hne _ (by decide)
    refine ⟨hall, ?_⟩
    rw [categoryStep, if_neg hall]
    have hfind : hotlineTypeMap.find? (fun p => decide (p.1 = c)) = none := by
      rw [List.find?_eq_none]
      intro p hp
      simp only [decide_eq_true_eq]
      rcases (by simpa [hotlineTypeMap] using hp :
          p = (str "Emergency Hotlines", [THotlineCategory.police_hotlines, .fire_hotlines]) ∨
          p = (str "Medical Hotlines", [THotlineCategory.medical_hotlines]) ∨
          p = (str "Government Hotlines", [THotlineCategory.government_hotlines]) ∨
          p = (str "Utility Hotlines", [THotlineCategory.utility_hotlines])) with
          h | h | h | h <;> subst h <;>
        exact fun hc => hne _ (by decide) hc.symm
    have hnone : hotlineTypeMapGet c = none := by
      rw [hotlineTypeMapGet, hfind]
      rfl
    rw [hnone]
    rfl

/-- Witness for C10: the Emergency filter value is total on any list. -/
theorem c10_witness :
    (categoryStep (str "Emergency Hotlines") ([] : List Hotline)).isSome = true :=
  (c10_category_totality [] (str "Emergency Hotlines")).1 (by decide)

-- ### Lemmas about the comparator and the stable sort

theorem strLeB_refl : ∀ s : Str, strLeB s s = true
  | [] => rfl
  | a :: as => by
    unfold strLeB
    rw [if_neg (Nat.lt_irrefl _), if_neg (Nat.lt_irrefl _)]
    exact strLeB_refl as

theorem strLeB_total : ∀ a b : Str, strLeB a b = true ∨ strLeB b a = true
  | [], _ => Or.inl rfl
  | _ :: _, [] => Or.inr rfl
  | a :: as, b :: bs => by
    unfold strLeB
    rcases Nat.lt_trichotomy a.toNat b.toNat with h | h | h
    · left; rw [if_pos h]
    · rw [if_neg (by omega), if_neg (by omega), if_neg (by omega), if_neg (by omega)]
      exact strLeB_total as bs
    · right; rw [if_pos h]

theorem strLeB_trans : ∀ a b c : Str, strLeB a b = true → strLeB b c = true →
    strLeB a c = true
  | [], _, _, _, _ => rfl
  | a :: as, [], c, h, _ => by cases h
  | a :: as, b :: bs, [], _, h => by cases h
  | a :: as, b :: bs, c :: cs, h1, h2 => by
    unfold strLeB at h1 h2 ⊢
    by_cases hab : a.toNat < b.toNat
    · by_cases hbc : b.toNat < c.toNat
      · rw [if_pos (by omega)]
      · rw [if_neg hbc] at h2
        by_cases hcb : c.toNat < b.toNat
        · rw [if_pos hcb] at h2; cases h2
        · rw [if_pos (by omega)]
    · rw [if_neg hab] at h1
      by_cases hba : b.toNat < a.toNat
      · rw [if_pos hba] at h1; cases h1
      · rw [if_neg hba] at h1
        by_cases hbc : b.toNat < c.toNat
        · rw [if_pos (by omega)]
        · rw [if_neg hbc] at h2
          by_cases hcb : c.toNat < b.toNat
          · rw [if_pos hcb] at h2; cases h2
          · rw [if_neg hcb] at h2
            rw [if_neg (by omega), if_neg (by omega)]
            exact strLeB_trans as bs cs h1 h2

theorem strLeB_antisymm : ∀ a b : Str, strLeB a b = true → strLeB b a = true → a = b
  | [], [], _, _ => rfl
  | [], _ :: _, _, h => by cases h
  | _ :: _, [], h, _ => by cases h
  | a :: as, b :: bs, h1, h2 => by
    unfold strLeB at h1 h2
    by_cases hab : a.toNat < b.toNat
    · rw [if_neg (by omega), if_pos hab] at h2; cases h2
    · rw [if_neg hab] at h1
      by_cases hba : b.toNat < a.toNat
      · rw [if_pos hba] at h1; cases h1
      · rw [if_neg hba, if_neg hab] at h2
        rw [if_neg hba] at h1
        have hc : a = b := char_toNat_inj (by omega)
        rw [hc, strLeB_antisymm as bs h1 h2]

theorem hotlineLE_total : ∀ a b : Hotline, (hotlineLE a b || hotlineLE b a) = true := by
  intro a b
  rcases Nat.lt_trichotomy (sort a.category) (sort b.category) with h | h | h
  · have hle : hotlineLE a b = true := by unfold hotlineLE; rw [if_pos h]
    rw [hle]; rfl
  · have h1 : ¬sort a.category < sort b.category := by omega
    have h2 : ¬sort b.category < sort a.category := by omega
    rcases strLeB_total (lowerStr a.hotlineName) (lowerStr b.hotlineName) with h' | h'
    · have hle : hotlineLE a b = true := by
        unfold hotlineLE; rw [if_neg h1, if_neg h2]; exact h'
      rw [hle]; rfl
    · have hle : hotlineLE b a = true := by
        unfold hotlineLE; rw [if_neg h2, if_neg h1]; exact h'
      rw [hle]; simp
  · have hle : hotlineLE b a = true := by unfold hotlineLE; rw [if_pos h]
    rw [hle]; simp

theorem hotlineLE_trans : ∀ a b c : Hotline,
    hotlineLE a b = true → hotlineLE b c = true → hotlineLE a c = true := by
  intro a b c h1 h2
  unfold hotlineLE at h1 h2 ⊢
  by_cases hab : sort a.category < sort b.category
  · by_cases hbc : sort b.category < sort c.category
    · rw [if_pos (by omega)]
    · rw [if_neg hbc] at h2
      by_cases hcb : sort c.category < sort b.category
      · rw [if_pos hcb] at h2; cases h2
      · rw [if_pos (by omega)]
  · rw [if_neg hab] at h1
    by_cases hba : sort b.category < sort a.category
    · rw [if_pos hba] at h1; cases h1
    · rw [if_neg hba] at h1
      by_cases hbc : sort b.category < sort c.category
      · rw [if_pos (by omega)]
      · rw [if_neg hbc] at h2
        by_cases hcb : sort c.category < sort b.category
        · rw [if_pos hcb] at h2; cases h2
        · rw [if_neg hcb] at h2
          rw [if_neg (by omega), if_neg (by omega)]
          exact strLeB_trans _ _ _ h1 h2

/-- Mutually `≤` hotlines have equal sort keys. -/
theorem hotlineLE_antisymm_keys : ∀ a b : Hotline,
    hotlineLE a b = true → hotlineLE b a = true →
    sort a.category = sort b.category ∧ lowerStr a.hotlineName = lowerStr b.hotlineName := by
  intro a b h1 h2
  unfold hotlineLE at h1 h2
  by_cases hab : sort a.category < sort b.category
  · rw [if_neg (by omega), if_pos hab] at h2; cases h2
  · rw [if_neg hab] at h1
    by_cases hba : sort b.category < sort a.category
    · rw [if_pos hba] at h1; cases h1
    · rw [if_neg hba] at h1
      rw [if_neg hba, if_neg hab] at h2
      exact ⟨by omega, strLeB_antisymm _ _ h1 h2⟩

/-- Equal sort keys give `≤` in both directions. -/
theorem hotlineLE_of_keys_eq {a b : Hotline}
    (hcat : sort a.category = sort b.category)
    (hname : lowerStr a.hotlineName = lowerStr b.hotlineName) : hotlineLE a b = true := by
  unfold hotlineLE
  rw [if_neg (by omega), if_neg (by omega), hname]
  exact strLeB_refl _

/-- `sortedSelectedHotlines` is sorted by the comparator. -/
theorem sortHotlines_sorted (l : List Hotline) :
    (sortHotlines l).Pairwise (fun a b => hotlineLE a b = true) :=
  @List.sorted_mergeSort Hotline hotlineLE hotlineLE_trans hotlineLE_total l

/-- `sortedSelectedHotlines` is a permutation of its input. -/
theorem sortHotlines_perm (l : List Hotline) : (sortHotlines l).Perm l :=
  List.mergeSort_perm l _

/-- Two sorted permutations of each other agree when the comparator is
antisymmetric on their members. -/
theorem sorted_perm_eq :
    ∀ (l₁ l₂ : List Hotline), l₁.Perm l₂ →
      l₁.Pairwise (fun a b => hotlineLE a b = true) →
      l₂.Pairwise (fun a b => hotlineLE a b = true) →
      (∀ a ∈ l₁, ∀ b ∈ l₁, hotlineLE a b = true → hotlineLE b a = true → a = b) →
      l₁ = l₂
  | [], l₂, hperm, _, _, _ => hperm.nil_eq
  | a :: t₁, [], hperm, _, _, _ => by cases hperm.eq_nil
  | a :: t₁, b :: t₂, hperm, hs₁, hs₂, hanti => by
    by_cases hab : a = b
    · subst hab
      have ht : t₁.Perm t₂ := hperm.cons_inv
      have := sorted_perm_eq t₁ t₂ ht (List.pairwise_cons.mp hs₁).2 (List.pairwise_cons.mp hs₂).2
        (fun x hx y hy => hanti x (List.mem_cons_of_mem _ hx) y (List.mem_cons_of_mem _ hy))
      rw [this]
    · exfalso
      have hbl : b ∈ t₁ := by
        rcases List.mem_cons.mp (hperm.mem_iff.mpr (List.mem_cons_self b t₂)) with h | h
        · exact absurd h.symm hab
        · exact h
      have hal : a ∈ t₂ := by
        rcases List.mem_cons.mp (hperm.mem_iff.mp (List.mem_cons_self a t₁)) with h | h
        · exact absurd h hab
        · exact h
      have h1 : hotlineLE a b = true := (List.pairwise_cons.mp hs₁).1 b hbl
      have h2 : hotlineLE b a = true := (List.pairwise_cons.mp hs₂).1 a hal
      exact hab (hanti a (List.mem_cons_self a t₁) b (List.mem_cons_of_mem _ hbl) h1 h2)

-- ### Claim C4

/-- A police hotline named `"Alpha"`. -/
def hAlpha : Hotline :=
  { hotlineName := str "Alpha", hotlineNumber := str "1", alternateNumbers := []
  , category := .police_hotlines, city := str "Manila", province := str "Metro Manila"
  , regionName := str "NCR" }

/-- A police hotline named `"ALPHA"` — a distinct `(category, name)` pair
from `hAlpha`, but the same case-insensitive sort key. -/
def hALPHA : Hotline :=
  { hotlineName := str "ALPHA", hotlineNumber := str "2", alternateNumbers := []
  , category := .police_hotlines, city := str "Manila", province := str "Metro Manila"
  , regionName := str "NCR" }

/-- Claim C4, counterexample: `hAlpha` and `hALPHA` have distinct
`(category, name)` pairs, yet their relative order in the sort output
depends on the input order, because the case-insensitive comparison ties
and the stable sort keeps the input order. -/
theorem c4_counterexample :
    (hAlpha.category, hAlpha.hotlineName) ≠ (hALPHA.category, hALPHA.hotlineName) ∧
      sortHotlines [hAlpha, hALPHA] = [hAlpha, hALPHA] ∧
      sortHotlines [hALPHA, hAlpha] = [hALPHA, hAlpha] := by
  refine ⟨by decide, ?_, ?_⟩
  · exact List.mergeSort_of_sorted (by decide)
  · exact List.mergeSort_of_sorted (by decide)

/-- Claim C4, amended: the engine's sort output is sorted by the fixed
category rank with ties broken by case-insensitive name comparison, is a
permutation of its input, is deterministic and independent of input order
for lists whose hotlines have pairwise distinct `(category rank,
case-insensitive name)` sort keys, and is stable: hotlines with the same
category and case-insensitively equal names keep their input order. -/
theorem c4_amended :
    (∀ l : List Hotline, (sortHotlines l).Pairwise (fun a b => hotlineLE a b = true)) ∧
    (∀ l : List Hotline, (sortHotlines l).Perm l) ∧
    (∀ l₁ l₂ : List Hotline, l₁.Perm l₂ →
        l₁.Pairwise (fun a b =>
          ¬(sort a.category = sort b.category ∧
            lowerStr a.hotlineName = lowerStr b.hotlineName)) →
        sortHotlines l₁ = sortHotlines l₂) ∧
    (∀ (l : List Hotline) (a b : Hotline),
        a.category = b.category → lowerStr a.hotlineName = lowerStr b.hotlineName →
        [a, b].Sublist l → [a, b].Sublist (sortHotlines l)) := by
  refine ⟨sortHotlines_sorted, sortHotlines_perm, ?_, ?_⟩
  · intro l₁ l₂ hperm hdist
    have hsym : Symmetric (fun a b : Hotline =>
        ¬(sort a.category = sort b.category ∧
          lowerStr a.hotlineName = lowerStr b.hotlineName)) := by
      intro a b h hk
      exact h ⟨hk.1.symm, hk.2.symm⟩
    have hanti : ∀ a ∈ sortHotlines l₁, ∀ b ∈ sortHotlines l₁,
        hotlineLE a b = true → hotlineLE b a = true → a = b := by
      intro a ha b hb h1 h2
      have ha' : a ∈ l₁ := (sortHotlines_perm l₁).subset ha
      have hb' : b ∈ l₁ := (sortHotlines_perm l₁).subset hb
      by_cases hab : a = b
      · exact hab
      · exact absurd (hotlineLE_antisymm_keys a b h1 h2) (hdist.forall hsym ha' hb' hab)
    exact sorted_perm_eq (sortHotlines l₁) (sortHotlines l₂)
      (((sortHotlines_perm l₁).trans hperm).trans (sortHotlines_perm l₂).symm)
      (sortHotlines_sorted l₁) (sortHotlines_sorted l₂) hanti
  · intro l a b hcat hname hsub
    have hk : hotlineLE a b = true := hotlineLE_of_keys_eq (by rw [hcat]) hname
    exact List.pair_sublist_mergeSort hotlineLE_trans hotlineLE_total hk hsub

/-- Witness for the amended C4: two hotlines with distinct sort keys come
out in the same order from either input order. -/
theorem c4_witness :
    sortHotlines [hManilaMM, hManilaMC] = sortHotlines [hManilaMC, hManilaMM] :=
  c4_amended.2.2.1 [hManilaMM, hManilaMC] [hManilaMC, hManilaMM]
    (List.Perm.swap hManilaMC hManilaMM []) (by decide)

-- ### Claim C8

/-- With no location filter set, the hierarchical filter keeps
everything. -/
theorem selectedHotlines_initial (hs : List Hotline) :
    selectedHotlines hs initialLoc = hs := by
  unfold selectedHotlines
  rw [List.filter_eq_self]
  intro h _
  unfold locationPred initialLoc
  simp

/-- Claim C8: each named category filter denotes exactly the claimed set
of hotline categories, and for every hotline list the engine output under
that filter is a permutation of the hotlines whose category lies in the
denoted set, ordered by the category rank (police before fire) with
case-insensitive alphabetical order within equal ranks. -/
theorem c8_category_filter :
    (hotlineTypeMapGet (str "Emergency Hotlines") =
        some [.police_hotlines, .fire_hotlines]) ∧
    (hotlineTypeMapGet (str "Medical Hotlines") = some [.medical_hotlines]) ∧
    (hotlineTypeMapGet (str "Government Hotlines") = some [.government_hotlines]) ∧
    (hotlineTypeMapGet (str "Utility Hotlines") = some [.utility_hotlines]) ∧
    (∀ (hs : List Hotline) (c : Str) (cats : List THotlineCategory),
        hotlineTypeMapGet c = some cats →
        hotlineFilterEngine hs initialLoc c =
            some (sortHotlines (hs.filter (fun h => cats.contains h.category))) ∧
          (sortHotlines (hs.filter (fun h => cats.contains h.category))).Perm
            (hs.filter (fun h => cats.contains h.category)) ∧
          (sortHotlines (hs.filter (fun h => cats.contains h.category))).Pairwise
            (fun a b => hotlineLE a b = true)) := by
  refine ⟨by decide, by decide, by decide, by decide, ?_⟩
  intro hs c cats hcats
  have hall : ¬c = str "All Hotlines" := by
    intro h
    subst h
    rw [show hotlineTypeMapGet (str "All Hotlines") = none from by decide] at hcats
    cases hcats
  refine ⟨?_, sortHotlines_perm _, sortHotlines_sorted _⟩
  unfold hotlineFilterEngine
  rw [selectedHotlines_initial, categoryStep, if_neg hall, hcats]
  rfl

/-- Witness for C8: the Emergency filter on a singleton police list. -/
theorem c8_witness :
    hotlineFilterEngine [hManilaMM] initialLoc (str "Emergency Hotlines") =
        some (sortHotlines ([hManilaMM].filter
          (fun h => [THotlineCategory.police_hotlines, .fire_hotlines].contains h.category))) ∧
      (sortHotlines ([hManilaMM].filter
          (fun h => [THotlineCategory.police_hotlines, .fire_hotlines].contains h.category))).Perm
        ([hManilaMM].filter
          (fun h => [THotlineCategory.police_hotlines, .fire_hotlines].contains h.category)) ∧
      (sortHotlines ([hManilaMM].filter
          (fun h => [THotlineCategory.police_hotlines, .fire_hotlines].contains h.category))).Pairwise
        (fun a b => hotlineLE a b = true) :=
  c8_category_filter.2.2.2.2 [hManilaMM] (str "Emergency Hotlines")
    [.police_hotlines, .fire_hotlines] (by decide)

end Hotlines
